import Mathlib

/-!
Verification development for the spreadsheet-extractor tool
(`src/tools/spreadsheet_extractor.py`).

The Python source is shallowly embedded: pure helper functions become Lean
functions, raised exceptions become `Except PyErr`, pandas frames become an
explicit `Frame` structure of column names and rows of `Option String` cells
(`none` models a pandas `NaN` / Python `None` cell), and Python `dict`s become
ordered association lists with Python's insertion semantics (a repeated key
keeps its first position and takes the last value).

External library behaviour used by the source is modelled where the source
delegates to it:
* `json.loads` is modelled by `jsonParse`, a strict JSON parser (objects built
  with `dict` semantics, control characters forbidden unescaped inside string
  literals, `NaN`/`Infinity` constants accepted).  Lone surrogate `\uXXXX`
  escapes are not representable in Lean strings and are rejected here.
* `bytes.decode("utf-8")` is modelled by `decodeUtf8` (full strict UTF-8).
* `bytes.decode("gbk")` is modelled by `decodeGbk`: ASCII passes through,
  lead/trail byte ranges follow the GBK code layout; the Unicode image of a
  double-byte pair is given exactly for the pairs exercised in this file and
  injectively into a private-use plane elsewhere.
* `pd.read_csv(..., dtype=str)` is modelled by `read_csv`: first non-blank
  line is the header, blank lines are skipped, an empty field is a missing
  (`none`) cell, a data row with more fields than the header raises
  `ParserError`, an input with no lines raises `EmptyDataError` (whose Python
  message is "No columns to parse from file").  CSV quoting is not modelled;
  no input in this development contains quotes.
* Python `str.strip()` / regex `\s` whitespace is the set `pyWs` below; the
  extra characters the source regexes list explicitly (` `, `　`,
  `\r`, `\n`, `\t`) are already members of that set, as they are of Python's.

Formatting of diagnostic messages follows the Python f-strings; where Python
formats a `set` (whose iteration order is unspecified) the list order of the
mapping is used, and the `json.JSONDecodeError` detail text is elided, since
no property below depends on either.
-/

namespace SpreadsheetExtractor

/-- Single-quote character, used to spell Python message texts. -/
def sq : String := (Char.ofNat 39).toString

/-! ## Python whitespace -/

/-- The whitespace characters recognised by Python's `str.strip()` and by the
`\s` class of `re` string patterns (which subsumes the explicit ` `,
`　`, `\r`, `\n`, `\t` listed in the source regexes). -/
def pyWs (c : Char) : Bool :=
  c = ' ' ∨ c = '\t' ∨ c = '\n' ∨ c = '\r' ∨
  c = Char.ofNat 0x0b ∨ c = Char.ofNat 0x0c ∨
  c = Char.ofNat 0x1c ∨ c = Char.ofNat 0x1d ∨
  c = Char.ofNat 0x1e ∨ c = Char.ofNat 0x1f ∨
  c = Char.ofNat 0x85 ∨ c = Char.ofNat 0xa0 ∨
  c = Char.ofNat 0x1680 ∨
  (0x2000 ≤ c.toNat ∧ c.toNat ≤ 0x200a) ∨
  c = Char.ofNat 0x2028 ∨ c = Char.ofNat 0x2029 ∨
  c = Char.ofNat 0x202f ∨ c = Char.ofNat 0x205f ∨
  c = Char.ofNat 0x3000

/-- Dropping a prefix never lengthens a list. -/
theorem dropWhile_length_le (p : α → Bool) (l : List α) :
    (l.dropWhile p).length ≤ l.length := by
  induction l with
  | nil => simp
  | cons a l ih =>
    by_cases h : p a
    · simp only [List.dropWhile_cons, h, if_true]
      exact Nat.le_succ_of_le ih
    · simp [List.dropWhile_cons, h]

/-- Scanner for the global substitution of `re.sub(r"[\s...]+", " ", ·)`:
`inRun` records whether the scan stands inside a whitespace run whose single
replacement space has already been emitted. -/
def collapseWsAux : Bool → List Char → List Char
  | _, [] => []
  | inRun, c :: cs =>
    if pyWs c then
      if inRun then collapseWsAux true cs
      else ' ' :: collapseWsAux true cs
    else c :: collapseWsAux false cs

/-- One global substitution of `re.sub(r"[\s...]+", " ", ·)`: every maximal
run of `pyWs` characters becomes a single ASCII space. -/
def collapseWs (l : List Char) : List Char := collapseWsAux false l

/-- Remove trailing `pyWs` characters. -/
def stripTrail (l : List Char) : List Char :=
  (l.reverse.dropWhile pyWs).reverse

/-- Python `str.strip()` on a character list. -/
def pyStripL (l : List Char) : List Char :=
  stripTrail (l.dropWhile pyWs)

/-- Python `str.strip()`. -/
def pyStrip (s : String) : String :=
  ⟨pyStripL s.data⟩

/-- The maximal `pyWs`-free words of a character list, in order: the
specification's reading of "collapse any run of whitespace … then trim". -/
def wordsOf : List Char → List (List Char)
  | [] => []
  | c :: cs =>
    if pyWs c then wordsOf cs
    else (c :: cs.takeWhile (fun d => ¬ pyWs d)) ::
      wordsOf (cs.dropWhile (fun d => ¬ pyWs d))
termination_by l => l.length
decreasing_by
  · simp
  · simp only [List.length_cons]
    exact Nat.lt_succ_of_le (dropWhile_length_le _ cs)

/-- Join words with single ASCII spaces. -/
def joinWords : List (List Char) → List Char
  | [] => []
  | [w] => w
  | w :: ws => w ++ ' ' :: joinWords ws

/-! ## JSON values and `json.loads` -/

/-- A parsed JSON value.  Numbers keep their lexeme: the source only ever asks
whether a value is a string, never for a numeric value. -/
inductive Json where
  | null
  | bool (b : Bool)
  | num (lexeme : String)
  | str (s : String)
  | arr (elems : List Json)
  | obj (entries : List (String × Json))

/-- Python `dict` assignment `d[k] = v` on an insertion-ordered association
list: a present key keeps its position and takes the new value, an absent key
is appended. -/
def insertAssoc (l : List (String × α)) (k : String) (v : α) : List (String × α) :=
  match l with
  | [] => [(k, v)]
  | (k0, v0) :: rest => if k0 = k then (k0, v) :: rest else (k0, v0) :: insertAssoc rest k v

/-- The inter-token whitespace `json.loads` skips. -/
def jsonSkipWs (l : List Char) : List Char :=
  l.dropWhile (fun c => c = ' ' ∨ c = '\t' ∨ c = '\n' ∨ c = '\r')

/-- Hex digit value. -/
def hexVal (c : Char) : Option Nat :=
  if '0' ≤ c ∧ c ≤ '9' then some (c.toNat - '0'.toNat)
  else if 'a' ≤ c ∧ c ≤ 'f' then some (c.toNat - 'a'.toNat + 10)
  else if 'A' ≤ c ∧ c ≤ 'F' then some (c.toNat - 'A'.toNat + 10)
  else none

def isJsonDigit (c : Char) : Bool := '0' ≤ c ∧ c ≤ '9'

/-- Body of a JSON string literal, after the opening quote.  Strict mode:
an unescaped control character fails the parse.  A `\uXXXX` high surrogate
must be completed by a low one (a lone surrogate, which CPython would accept,
has no Lean `Char` and is rejected here). -/
def parseStringBody (acc : List Char) : List Char → Option (String × List Char)
  | [] => none
  | c :: cs =>
    if c = '"' then some (⟨acc.reverse⟩, cs)
    else if c = '\\' then
      match cs with
      | [] => none
      | e :: cs2 =>
        if e = '"' then parseStringBody ('"' :: acc) cs2
        else if e = '\\' then parseStringBody ('\\' :: acc) cs2
        else if e = '/' then parseStringBody ('/' :: acc) cs2
        else if e = 'b' then parseStringBody (Char.ofNat 8 :: acc) cs2
        else if e = 'f' then parseStringBody (Char.ofNat 12 :: acc) cs2
        else if e = 'n' then parseStringBody ('\n' :: acc) cs2
        else if e = 'r' then parseStringBody ('\r' :: acc) cs2
        else if e = 't' then parseStringBody ('\t' :: acc) cs2
        else if e = 'u' then
          match cs2 with
          | h1 :: h2 :: h3 :: h4 :: cs3 =>
            match hexVal h1, hexVal h2, hexVal h3, hexVal h4 with
            | some a, some b, some c1, some d =>
              let n := ((a * 16 + b) * 16 + c1) * 16 + d
              if n < 0xd800 ∨ 0xe000 ≤ n then
                parseStringBody (Char.ofNat n :: acc) cs3
              else if n < 0xdc00 then
                match cs3 with
                | x :: y :: g1 :: g2 :: g3 :: g4 :: cs4 =>
                  if x = '\\' ∧ y = 'u' then
                    match hexVal g1, hexVal g2, hexVal g3, hexVal g4 with
                    | some a2, some b2, some c2, some d2 =>
                      let m := ((a2 * 16 + b2) * 16 + c2) * 16 + d2
                      if 0xdc00 ≤ m ∧ m < 0xe000 then
                        parseStringBody
                          (Char.ofNat (0x10000 + (n - 0xd800) * 0x400 + (m - 0xdc00)) :: acc) cs4
                      else none
                    | _, _, _, _ => none
                  else none
                | _ => none
              else none
            | _, _, _, _ => none
          | _ => none
        else none
    else if c.toNat < 0x20 then none
    else parseStringBody (c :: acc) cs

/-- Integer part of a JSON number: `0`, or a nonzero digit followed by
digits (no leading zeros). -/
def parseIntPart : List Char → Option (List Char × List Char)
  | [] => none
  | c :: cs =>
    if c = '0' then some ([c], cs)
    else if isJsonDigit c then
      some (c :: cs.takeWhile isJsonDigit, cs.dropWhile isJsonDigit)
    else none

/-- Optional fractional part `.digits`. -/
def parseFracPart : List Char → Option (List Char × List Char)
  | c :: cs =>
    if c = '.' then
      let d := cs.takeWhile isJsonDigit
      if d = [] then none else some (c :: d, cs.dropWhile isJsonDigit)
    else some ([], c :: cs)
  | [] => some ([], [])

/-- Optional exponent part `[eE][+-]?digits`. -/
def parseExpPart : List Char → Option (List Char × List Char)
  | c :: cs =>
    if c = 'e' ∨ c = 'E' then
      let sr : List Char × List Char :=
        match cs with
        | s :: cs2 => if s = '+' ∨ s = '-' then ([s], cs2) else ([], cs)
        | [] => ([], [])
      let d := sr.2.takeWhile isJsonDigit
      if d = [] then none else some (c :: sr.1 ++ d, sr.2.dropWhile isJsonDigit)
    else some ([], c :: cs)
  | [] => some ([], [])

/-- A JSON number lexeme `-?(0|[1-9][0-9]*)(\.[0-9]+)?([eE][+-]?[0-9]+)?`. -/
def parseNumber (l : List Char) : Option (String × List Char) :=
  let sl : List Char × List Char :=
    match l with
    | c :: rest => if c = '-' then ([c], rest) else ([], l)
    | [] => ([], [])
  match parseIntPart sl.2 with
  | none => none
  | some (ip, l2) =>
    match parseFracPart l2 with
    | none => none
    | some (fp, l3) =>
      match parseExpPart l3 with
      | none => none
      | some (ep, l4) => some (⟨sl.1 ++ ip ++ fp ++ ep⟩, l4)

mutual

/-- One JSON value, with leading whitespace skipped; models CPython's
`json.scanner` (including the `NaN` / `Infinity` constants it accepts). -/
def parseVal : Nat → List Char → Option (Json × List Char)
  | 0, _ => none
  | fuel + 1, l =>
    match jsonSkipWs l with
    | [] => none
    | c :: rest =>
      if c = '"' then
        match parseStringBody [] rest with
        | some (s, r) => some (.str s, r)
        | none => none
      else if c = Char.ofNat 0x7b then
        match jsonSkipWs rest with
        | d :: r2 => if d = Char.ofNat 0x7d then some (.obj [], r2)
                     else parseObjMembers fuel [] (d :: r2)
        | [] => none
      else if c = '[' then
        match jsonSkipWs rest with
        | d :: r2 => if d = ']' then some (.arr [], r2)
                     else parseArrMembers fuel [] (d :: r2)
        | [] => none
      else if c = 't' then
        match rest with
        | 'r' :: 'u' :: 'e' :: r => some (.bool true, r)
        | _ => none
      else if c = 'f' then
        match rest with
        | 'a' :: 'l' :: 's' :: 'e' :: r => some (.bool false, r)
        | _ => none
      else if c = 'n' then
        match rest with
        | 'u' :: 'l' :: 'l' :: r => some (.null, r)
        | _ => none
      else if c = 'N' then
        match rest with
        | 'a' :: 'N' :: r => some (.num "NaN", r)
        | _ => none
      else if c = 'I' then
        match rest with
        | 'n' :: 'f' :: 'i' :: 'n' :: 'i' :: 't' :: 'y' :: r => some (.num "Infinity", r)
        | _ => none
      else if c = '-' ∧ rest.take 8 = "Infinity".data then
        some (.num "-Infinity", rest.drop 8)
      else
        match parseNumber (c :: rest) with
        | some (lx, r) => some (.num lx, r)
        | none => none

/-- Members of a JSON object, positioned at the start of a key; the object is
built with `insertAssoc`, i.e. with Python `dict` duplicate-key semantics. -/
def parseObjMembers : Nat → List (String × Json) → List Char → Option (Json × List Char)
  | 0, _, _ => none
  | fuel + 1, acc, l =>
    match jsonSkipWs l with
    | c :: rest =>
      if c = '"' then
        match parseStringBody [] rest with
        | some (k, r) =>
          match jsonSkipWs r with
          | d :: r2 =>
            if d = ':' then
              match parseVal fuel r2 with
              | some (v, r3) =>
                let acc2 := insertAssoc acc k v
                match jsonSkipWs r3 with
                | e :: r4 =>
                  if e = ',' then parseObjMembers fuel acc2 r4
                  else if e = Char.ofNat 0x7d then some (.obj acc2, r4)
                  else none
                | [] => none
              | none => none
            else none
          | [] => none
        | none => none
      else none
    | [] => none

/-- Elements of a JSON array, positioned at the start of an element. -/
def parseArrMembers : Nat → List Json → List Char → Option (Json × List Char)
  | 0, _, _ => none
  | fuel + 1, acc, l =>
    match parseVal fuel l with
    | some (v, r) =>
      match jsonSkipWs r with
      | e :: r2 =>
        if e = ',' then parseArrMembers fuel (acc ++ [v]) r2
        else if e = ']' then some (.arr (acc ++ [v]), r2)
        else none
      | [] => none
    | none => none

end

/-- `json.loads`: parse one JSON document, requiring nothing but whitespace
after it; `none` models a raised `json.JSONDecodeError`. -/
def jsonParse (s : String) : Option Json :=
  match parseVal (2 * s.data.length + 2) s.data with
  | some (j, rest) => if jsonSkipWs rest = [] then some j else none
  | none => none

/-! ## Python exceptions -/

/-- The exceptions the source can raise, with Python's `str(e)` message.
`missingColumns` keeps its data structurally (Python formats a `set`, whose
iteration order is unspecified); all other messages are the literal f-string
texts.  The specification's error taxonomy maps onto these as:
`InvalidInputError` = the `ValueError`s of `handler_input`,
`UnsupportedFormatError` = the `ValueError` of the extension dispatch,
`UnreadableFileError` = the `RuntimeError` of `read_csv_with_encoding`,
`FileParseError` = the wrapping `RuntimeError` "Failed to parse file: …",
`MissingColumnsError` = the `ValueError` carried by `missingColumns`. -/
inductive PyErr where
  | valueError (msg : String)
  | typeError (msg : String)
  | runtimeError (msg : String)
  | attributeError (msg : String)
  | unicodeDecodeError (encoding : String)
  | parserError (msg : String)
  | emptyDataError
  | missingColumns (missing : List String) (available : List String)
deriving DecidableEq

/-- Python `str` of a list of strings, e.g. `["a", "b"]` prints
as a bracketed, single-quoted, comma-separated list. -/
def pyStrList (l : List String) : String :=
  "[" ++ String.intercalate ", " (l.map (fun s => sq ++ s ++ sq)) ++ "]"

/-- Python `str` of a set of strings (iteration order modelled as the given
list order; nothing below depends on it). -/
def pyStrSet (l : List String) : String :=
  "\x7b" ++ String.intercalate ", " (l.map (fun s => sq ++ s ++ sq)) ++ "\x7d"

/-- Python `str(e)` for each exception. -/
def pyStrErr : PyErr → String
  | .valueError m => m
  | .typeError m => m
  | .runtimeError m => m
  | .attributeError m => m
  | .unicodeDecodeError enc => "invalid byte sequence for encoding " ++ enc
  | .parserError m => m
  | .emptyDataError => "No columns to parse from file"
  | .missingColumns missing available =>
      "Missing columns in file: " ++ pyStrSet missing ++ ". Available: " ++ pyStrList available

/-! ## Byte decoders -/

/-- Is `b` a UTF-8 continuation byte? -/
def utf8Cont (b : Nat) : Bool := 0x80 ≤ b ∧ b < 0xc0

/-- Strict UTF-8 decoding of a byte sequence, as `bytes.decode("utf-8")`:
rejects invalid leads, truncated or wrong continuations, overlong forms,
surrogates, and code points above `0x10ffff`. -/
def decodeUtf8 : List Nat → Option (List Char)
  | [] => some []
  | b :: bs =>
    if b < 0x80 then (decodeUtf8 bs).map (Char.ofNat b :: ·)
    else if b < 0xc2 then none
    else if b < 0xe0 then
      match bs with
      | b2 :: rest =>
        if utf8Cont b2 then
          (decodeUtf8 rest).map (Char.ofNat ((b - 0xc0) * 0x40 + (b2 - 0x80)) :: ·)
        else none
      | [] => none
    else if b < 0xf0 then
      match bs with
      | b2 :: b3 :: rest =>
        let cp := (b - 0xe0) * 0x1000 + (b2 - 0x80) * 0x40 + (b3 - 0x80)
        if utf8Cont b2 ∧ utf8Cont b3 ∧ 0x800 ≤ cp ∧ (cp < 0xd800 ∨ 0xe000 ≤ cp) then
          (decodeUtf8 rest).map (Char.ofNat cp :: ·)
        else none
      | _ => none
    else if b < 0xf5 then
      match bs with
      | b2 :: b3 :: b4 :: rest =>
        let cp := (b - 0xf0) * 0x40000 + (b2 - 0x80) * 0x1000 + (b3 - 0x80) * 0x40 + (b4 - 0x80)
        if utf8Cont b2 ∧ utf8Cont b3 ∧ utf8Cont b4 ∧ 0x10000 ≤ cp ∧ cp ≤ 0x10ffff then
          (decodeUtf8 rest).map (Char.ofNat cp :: ·)
        else none
      | _ => none
    else none

/-- Unicode image of a GBK double-byte code.  The mapping is given exactly
for the pairs exercised in this development and injectively into the
plane-15 private-use area elsewhere (the full GBK table is a large external
constant the source never inspects). -/
def gbkChar (b1 b2 : Nat) : Char :=
  if b1 = 0xc4 ∧ b2 = 0xe3 then Char.ofNat 0x4f60
  else Char.ofNat (0xf0000 + (b1 - 0x81) * 0xbf + (b2 - 0x40))

/-- `bytes.decode("gbk")`: ASCII passes through; a lead byte `0x81`–`0xfe`
must be followed by a trail byte `0x40`–`0xfe` other than `0x7f`. -/
def decodeGbk : List Nat → Option (List Char)
  | [] => some []
  | b :: bs =>
    if b < 0x80 then (decodeGbk bs).map (Char.ofNat b :: ·)
    else if b = 0x80 ∨ b = 0xff then none
    else
      match bs with
      | b2 :: rest =>
        if 0x40 ≤ b2 ∧ b2 ≤ 0xfe ∧ b2 ≠ 0x7f then
          (decodeGbk rest).map (gbkChar b b2 :: ·)
        else none
      | [] => none

/-- String-valued wrapper of `decodeUtf8`. -/
def decodeUtf8Str (content : List Nat) : Option String :=
  (decodeUtf8 content).map (fun l => ⟨l⟩)

/-- String-valued wrapper of `decodeGbk`. -/
def decodeGbkStr (content : List Nat) : Option String :=
  (decodeGbk content).map (fun l => ⟨l⟩)

/-! ## Tabular frames and `pd.read_csv` -/

/-- A pandas `DataFrame` read with `dtype=str`: ordered column names and rows
of string-or-missing cells (`none` is pandas `NaN`, which line 92 of the
source turns into Python `None`). -/
structure Frame where
  columns : List String
  rows : List (List (Option String))
deriving DecidableEq

/-- Split a character list at every occurrence of `sep`. -/
def splitOnChar (sep : Char) : List Char → List (List Char)
  | [] => [[]]
  | c :: cs =>
    if c = sep then [] :: splitOnChar sep cs
    else
      match splitOnChar sep cs with
      | h :: t => (c :: h) :: t
      | [] => [[c]]

/-- A CSV field with `dtype=str`: an empty field is a missing cell. -/
def csvCell (cs : List Char) : Option String :=
  if cs = [] then none else some ⟨cs⟩

/-- Drop a trailing carriage return (DOS line ending). -/
def stripTrailingCr (l : List Char) : List Char :=
  match l.reverse with
  | '\r' :: r => r.reverse
  | _ => l

/-- The non-blank lines of the text. -/
def csvLines (text : String) : List (List Char) :=
  ((splitOnChar '\n' text.data).map stripTrailingCr).filter (· ≠ [])

/-- The header row, as column names. -/
def csvHeader (header : List Char) : List String :=
  (splitOnChar ',' header).map (fun cs => ⟨cs⟩)

/-- One data row, padded with missing cells to the header width. -/
def csvRow (width : Nat) (r : List Char) : List (Option String) :=
  (splitOnChar ',' r).map csvCell ++
    List.replicate (width - ((splitOnChar ',' r).map csvCell).length) none

/-- `pd.read_csv(io.StringIO(text), dtype=str)`, for the unquoted CSV this
tool handles: lines split on newline (a trailing carriage return is DOS line
ending, removed), blank lines skipped, first line the header; a data row
with more fields than the header is a tokenization `ParserError`, a shorter
row is padded with missing cells; no input lines is `EmptyDataError`. -/
def read_csv (text : String) : Except PyErr Frame :=
  match csvLines text with
  | [] => .error .emptyDataError
  | header :: dataRows =>
    if dataRows.any (fun r => (csvHeader header).length < (splitOnChar ',' r).length) then
      .error (.parserError "Error tokenizing data")
    else
      .ok { columns := csvHeader header
            rows := dataRows.map (csvRow (csvHeader header).length) }

/-! ## `handler_input` (source lines 18–43) -/

/-- `str(value)` as a Python f-string embeds a non-string JSON value
(container contents elided; no property here depends on them). -/
def pyShowJson : Json → String
  | .null => "None"
  | .bool true => "True"
  | .bool false => "False"
  | .num lx => lx
  | .str s => s
  | .arr _ => "[…]"
  | .obj _ => "\x7b…\x7d"

/-- Lines 19–20: `re.sub(r"[\s ]+", " ", table_fields)` followed by
`.strip()` (the character class denotes exactly `pyWs`). -/
def normalizeTableFields (s : String) : String :=
  pyStrip ⟨collapseWs s.data⟩

/-- The validation loop of lines 30–36, carried out on the entries of the
parsed JSON object in order, building the result `dict`.  Any `ValueError`
it raises is caught by line 42 and re-raised with the
"Failed to parse table_fields: " prefix. -/
def validateEntries : List (String × Json) → List (String × String) →
    Except PyErr (List (String × String))
  | [], acc => .ok acc
  | (field, aval) :: rest, acc =>
    if pyStrip field = "" then
      .error (.valueError ("Failed to parse table_fields: Invalid field: " ++ field))
    else
      match aval with
      | .str a =>
        if pyStrip a = "" then
          .error (.valueError ("Failed to parse table_fields: Invalid alias for "
            ++ sq ++ field ++ sq ++ ": " ++ a))
        else validateEntries rest (insertAssoc acc (pyStrip field) (pyStrip a))
      | v =>
        .error (.valueError ("Failed to parse table_fields: Invalid alias for "
          ++ sq ++ field ++ sq ++ ": " ++ pyShowJson v))

/-- `handler_input` (lines 18–43): whitespace-normalize the raw text, reject
empty/all-whitespace input, parse the normalized text as JSON, require a JSON
object, validate and trim every key and value.  All failures are
`ValueError`s (the `json.JSONDecodeError` detail text is elided). -/
def handler_input (table_fields : String) : Except PyErr (List (String × String)) :=
  let normalized := normalizeTableFields table_fields
  if pyStrip table_fields = "" then .error (.valueError "Empty table_fields input")
  else
    match jsonParse normalized with
    | none => .error (.valueError "Invalid JSON format: Expecting value")
    | some (.obj entries) => validateEntries entries []
    | some _ => .error (.valueError "Failed to parse table_fields: Input must be a JSON object")

/-! ## `read_csv_with_encoding` (lines 46–53) -/

/-- Message of line 53: `f"Failed to decode CSV with encodings: {encodings}"`
with the default candidate tuple `("utf-8", "gbk")`. -/
def encodingsMsg : String :=
  "Failed to decode CSV with encodings: (" ++ sq ++ "utf-8" ++ sq ++ ", " ++ sq ++ "gbk" ++ sq ++ ")"

/-- One iteration of the loop of lines 47–52: a failed decode
(`UnicodeDecodeError`) or a `pd.errors.ParserError` falls through to the
next candidate; any other `read_csv` exception propagates. -/
def csvAttempt (decoded : Option String) (next : Except PyErr Frame) : Except PyErr Frame :=
  match decoded with
  | none => next
  | some text =>
    match read_csv text with
    | .ok f => .ok f
    | .error (.parserError _) => next
    | .error e => .error e

/-- `read_csv_with_encoding(content)` with the default
`encodings=("utf-8", "gbk")`. -/
def read_csv_with_encoding (content : List Nat) : Except PyErr Frame :=
  csvAttempt (decodeUtf8Str content)
    (csvAttempt (decodeGbkStr content)
      (.error (.runtimeError encodingsMsg)))

/-! ## `clean_column_name` (lines 56–60) and the frame pipeline (lines 63–93) -/

/-- `clean_column_name`: `re.sub(r"[\s 　\r\n\t]+", " ", name)`
then `.strip()` (the class again denotes `pyWs`; frames built here are
string-typed, so the defensive `str(name)` branch of line 58 is not taken). -/
def clean_column_name (name : String) : String :=
  pyStrip ⟨collapseWs name.data⟩

/-- Lines 81–83: replace the frame's column names by their cleaned forms;
row data and column order untouched. -/
def normalizeColumns (f : Frame) : Frame :=
  { f with columns := f.columns.map clean_column_name }

/-- An output record: an insertion-ordered mapping from alias to
string-or-null cell value. -/
abbrev Rec := List (String × Option String)

/-- First index of a column name, as pandas label-based selection finds it. -/
def idxOfCol : List String → String → Option Nat
  | [], _ => none
  | c :: cs, k => if c = k then some 0 else (idxOfCol cs k).map (· + 1)

/-- The cell of `row` under column `k` of `cols` (missing when the column is
absent or the row is short; a short row's missing tail is `NaN`). -/
def colCell (cols : List String) (row : List (Option String)) (k : String) : Option String :=
  match idxOfCol cols k with
  | some i => row.getD i none
  | none => none

/-- Lines 86–93: the projection.  The mapping keys absent from the column
set are computed first (line 86) and, if any, raised as the missing-columns
`ValueError` (line 88); otherwise the key columns are selected in mapping
order, renamed to their aliases (line 90), `NaN` cells become `None`
(line 92), and each row becomes a record `dict` (line 93). -/
def projectFrame (df : Frame) (field_mapping : List (String × String)) :
    Except PyErr (List Rec) :=
  let missing := (field_mapping.map Prod.fst).filter (fun k => ¬ df.columns.contains k)
  if missing = [] then
    .ok (df.rows.map (fun row =>
      field_mapping.foldl (fun acc p => insertAssoc acc p.2 (colCell df.columns row p.1)) []))
  else .error (.missingColumns missing df.columns)

/-- The `File` object the host runtime hands over: a file-extension string
and the raw byte content (`blob`). -/
structure File where
  extension : String
  blob : List Nat
deriving DecidableEq

/-- The `file` invocation parameter: either a genuine `File` or something
else (line 64's `isinstance` check). -/
inductive FileParam where
  | file (f : File)
  | notFile
deriving DecidableEq

/-- Python `str.lower()` (extensions are ASCII). -/
def pyLower (s : String) : String := ⟨s.data.map Char.toLower⟩

/-- Message of line 76. -/
def unsupportedMsg (ext : String) : String :=
  "Unsupported file format: " ++ ext ++ ". Only .csv, .xlsx, and .xls are supported."

/-- `str` of the `AttributeError` that line 74's `pd.read_spreadsheet` raises:
pandas exposes no such attribute (the library function is `pd.read_excel`). -/
def readSpreadsheetMissingMsg : String :=
  "module " ++ sq ++ "pandas" ++ sq ++ " has no attribute " ++ sq ++ "read_spreadsheet" ++ sq

/-- `read_table_file_to_objects` (lines 63–93).  The `try` of lines 70–78
wraps the whole extension dispatch: every exception it raises — undecodable
CSV, the unsupported-extension `ValueError`, the `AttributeError` of the
nonexistent `pd.read_spreadsheet` — is re-raised as
`RuntimeError("Failed to parse file: …")`. -/
def read_table_file_to_objects (file : FileParam) (field_mapping : List (String × String)) :
    Except PyErr (List Rec) :=
  match file with
  | .notFile => .error (.typeError "Invalid file format, expected File object")
  | .file f =>
    let ext := pyLower f.extension
    let parsed : Except PyErr Frame :=
      if ext = ".csv" then read_csv_with_encoding f.blob
      else if ext = ".xlsx" ∨ ext = ".xls" then .error (.attributeError readSpreadsheetMissingMsg)
      else .error (.valueError (unsupportedMsg ext))
    match parsed with
    | .error e => .error (.runtimeError ("Failed to parse file: " ++ pyStrErr e))
    | .ok df => projectFrame (normalizeColumns df) field_mapping

/-! ## `SpreadsheetExtractorTool._invoke` (lines 96–105) -/

def hexDigit (n : Nat) : Char :=
  if n < 10 then Char.ofNat ('0'.toNat + n) else Char.ofNat ('a'.toNat + n - 10)

/-- `json.dumps` escaping of one character (`ensure_ascii=False`). -/
def jsonEscapeChar (c : Char) : List Char :=
  if c = '"' then ['\\', '"']
  else if c = '\\' then ['\\', '\\']
  else if c = '\n' then ['\\', 'n']
  else if c = '\t' then ['\\', 't']
  else if c = '\r' then ['\\', 'r']
  else if c.toNat = 8 then ['\\', 'b']
  else if c.toNat = 12 then ['\\', 'f']
  else if c.toNat < 0x20 then
    ['\\', 'u', '0', '0', hexDigit (c.toNat / 16), hexDigit (c.toNat % 16)]
  else [c]

def jsonEscape (s : String) : String := ⟨(s.data.map jsonEscapeChar).flatten⟩

def dumpCell : Option String → String
  | none => "null"
  | some s => "\"" ++ jsonEscape s ++ "\""

def dumpRec (r : Rec) : String :=
  "\x7b" ++ String.intercalate ", "
    (r.map (fun p => "\"" ++ jsonEscape p.1 ++ "\": " ++ dumpCell p.2)) ++ "\x7d"

/-- `json.dumps({"result": result}, ensure_ascii=False)` with the default
separators. -/
def dumpOutput (result : List Rec) : String :=
  "\x7b\"result\": [" ++ String.intercalate ", " (result.map dumpRec) ++ "]\x7d"

/-- A message yielded by the tool: the structured `{"result": …}` JSON
message (carrying the record list) or a plain text message. -/
inductive ToolMessage where
  | jsonMsg (result : List Rec)
  | textMsg (s : String)
deriving DecidableEq

/-- The invocation parameters the host runtime supplies. -/
structure ToolParams where
  table_fields : String
  file : FileParam

/-- `SpreadsheetExtractorTool._invoke` (lines 96–105): run the pipeline; on
success yield the structured result message and its text echo, on any
exception yield the single `Error: …` text message. -/
def toolInvoke (p : ToolParams) : List ToolMessage :=
  match handler_input p.table_fields with
  | .error e => [.textMsg ("Error: " ++ pyStrErr e)]
  | .ok fm =>
    match read_table_file_to_objects p.file fm with
    | .error e => [.textMsg ("Error: " ++ pyStrErr e)]
    | .ok result => [.jsonMsg result, .textMsg (dumpOutput result)]

/-! ## Derived notions used to state the properties -/

/-- The UTF-8 bytes of an ASCII string, for writing concrete file contents. -/
def asciiBytes (s : String) : List Nat := s.data.map Char.toNat

/-- Keys of an association list. -/
def keysOf (l : List (String × α)) : List String := l.map Prod.fst

/-- The fold that builds a Python `dict` from a sequence of assignments. -/
def foldInsert (acc : List (String × α)) (l : List (String × α)) : List (String × α) :=
  l.foldl (fun a p => insertAssoc a p.1 p.2) acc

/-- First-occurrence deduplication, relative to already-seen keys: the key
sequence of the `dict` the assignments of `l` leave behind. -/
def dedupFrom (seen : List String) : List String → List String
  | [] => []
  | k :: rest =>
    if seen.contains k then dedupFrom seen rest
    else k :: dedupFrom (seen ++ [k]) rest

/-- First-occurrence deduplication of a key sequence. -/
def dedupKeepFirst (l : List String) : List String := dedupFrom [] l

/-- An entry of the parsed JSON object that the validation loop of
`handler_input` accepts: a string value, key and value non-empty after
trimming. -/
def entryGood (p : String × Json) : Prop :=
  pyStrip p.1 ≠ "" ∧ ∃ sv, p.2 = Json.str sv ∧ pyStrip sv ≠ ""

/-- The string carried by a JSON string value. -/
def jsonStrVal : Json → String
  | .str s => s
  | _ => ""

/-- An object entry with key and value trimmed, as the validation loop
stores it. -/
def trimEntry (p : String × Json) : String × String :=
  (pyStrip p.1, pyStrip (jsonStrVal p.2))

/-- A CSV decoding candidate fails *with an exception the loop of
`read_csv_with_encoding` catches*: the text decode raises
`UnicodeDecodeError`, or `read_csv` raises `pd.errors.ParserError`. -/
def caughtFail (decoded : Option String) : Prop :=
  decoded = none ∨ ∃ t m, decoded = some t ∧ read_csv t = .error (.parserError m)

/-- The two pipeline steps of `_invoke`, composed. -/
def pipelineResult (p : ToolParams) : Except PyErr (List Rec) :=
  match handler_input p.table_fields with
  | .error e => .error e
  | .ok fm => read_table_file_to_objects p.file fm


/-! ## Whitespace lemmas -/

theorem collapseWsAux_true_eq (l : List Char) :
    collapseWsAux true l = collapseWsAux false (l.dropWhile pyWs) := by
  induction l with
  | nil => rfl
  | cons c cs ih =>
    by_cases h : pyWs c
    · simp [collapseWsAux, h, List.dropWhile_cons, ih]
    · simp [collapseWsAux, h, List.dropWhile_cons]

theorem collapseWs_cons_ws (c : Char) (cs : List Char) (h : pyWs c) :
    collapseWs (c :: cs) = ' ' :: collapseWs (cs.dropWhile pyWs) := by
  unfold collapseWs
  simp [collapseWsAux, h, collapseWsAux_true_eq]

theorem collapseWs_cons_not_ws (c : Char) (cs : List Char) (h : ¬ pyWs c) :
    collapseWs (c :: cs) = c :: collapseWs cs := by
  unfold collapseWs
  simp [collapseWsAux, h]

theorem wordsOf_cons_ws (c : Char) (cs : List Char) (h : pyWs c) :
    wordsOf (c :: cs) = wordsOf cs := by
  simp [wordsOf, h]

theorem wordsOf_cons_not_ws (c : Char) (cs : List Char) (h : ¬ pyWs c) :
    wordsOf (c :: cs) = (c :: cs.takeWhile (fun d => ¬ pyWs d)) ::
      wordsOf (cs.dropWhile (fun d => ¬ pyWs d)) := by
  simp [wordsOf, h]

theorem stripTrail_eq_nil_iff (l : List Char) :
    stripTrail l = [] ↔ ∀ c ∈ l, pyWs c := by
  unfold stripTrail
  rw [List.reverse_eq_nil_iff, List.dropWhile_eq_nil_iff]
  constructor
  · intro h c hc; exact h c (List.mem_reverse.mpr hc)
  · intro h c hc; exact h c (List.mem_reverse.mp hc)

theorem stripTrail_no_ws (l : List Char) (h : ∀ c ∈ l, ¬ pyWs c) :
    stripTrail l = l := by
  unfold stripTrail
  rw [List.dropWhile_eq_self_iff.mpr, List.reverse_reverse]
  intro hl
  simpa using h _ (List.mem_reverse.mp (List.get_mem l.reverse 0 hl))

theorem stripTrail_append (A B : List Char) :
    stripTrail (A ++ B) =
      if stripTrail B = [] then stripTrail A else A ++ stripTrail B := by
  have hb : stripTrail B = [] ↔ B.reverse.dropWhile pyWs = [] := by
    unfold stripTrail; rw [List.reverse_eq_nil_iff]
  unfold stripTrail
  rw [List.reverse_append, List.dropWhile_append]
  by_cases h : B.reverse.dropWhile pyWs = []
  · rw [if_pos (by simp [h]), if_pos (by simp [h])]
  · rw [if_neg (by simp [h]), if_neg (by simp [h]),
      List.reverse_append, List.reverse_reverse]

theorem pyStripL_eq_nil_iff (l : List Char) :
    pyStripL l = [] ↔ ∀ c ∈ l, pyWs c := by
  unfold pyStripL
  rw [stripTrail_eq_nil_iff]
  constructor
  · intro h
    induction l with
    | nil => simp
    | cons a l ih =>
      by_cases ha : pyWs a
      · rw [List.dropWhile_cons, if_pos ha] at h
        intro c hc
        rcases List.mem_cons.mp hc with rfl | hc
        · exact ha
        · exact ih h c hc
      · rw [List.dropWhile_cons, if_neg ha] at h
        exact h
  · intro h c hc
    exact h c ((List.dropWhile_sublist pyWs).subset hc)

theorem collapseWs_word (w r : List Char) (h : ∀ c ∈ w, ¬ pyWs c) :
    collapseWs (w ++ r) = w ++ collapseWs r := by
  induction w with
  | nil => simp
  | cons a w ih =>
    have ha : ¬ pyWs a := h a (List.mem_cons_self a w)
    rw [List.cons_append, collapseWs_cons_not_ws a _ ha,
      ih (fun c hc => h c (List.mem_cons_of_mem a hc)), List.cons_append]

theorem collapseWs_ws_run (c : Char) (cs : List Char)
    (h : ∀ x ∈ c :: cs, pyWs x) : collapseWs (c :: cs) = [' '] := by
  rw [collapseWs_cons_ws c cs (h c (List.mem_cons_self c cs))]
  have hnil : cs.dropWhile pyWs = [] :=
    List.dropWhile_eq_nil_iff.mpr (fun x hx => h x (List.mem_cons_of_mem c hx))
  rw [hnil]
  rfl

theorem wordsOf_dropWhile_ws (l : List Char) :
    wordsOf (l.dropWhile pyWs) = wordsOf l := by
  induction l with
  | nil => rfl
  | cons a l ih =>
    by_cases ha : pyWs a
    · rw [List.dropWhile_cons, if_pos ha, ih, wordsOf_cons_ws a l ha]
    · rw [List.dropWhile_cons, if_neg ha]

theorem wordsOf_eq_nil_iff (l : List Char) :
    wordsOf l = [] ↔ ∀ c ∈ l, pyWs c := by
  induction l with
  | nil => simp [wordsOf]
  | cons a l ih =>
    by_cases ha : pyWs a
    · rw [wordsOf_cons_ws a l ha, ih]
      constructor
      · intro h c hc
        rcases List.mem_cons.mp hc with rfl | hc
        · exact ha
        · exact h c hc
      · intro h c hc
        exact h c (List.mem_cons_of_mem a hc)
    · rw [wordsOf_cons_not_ws a l ha]
      constructor
      · intro hcon
        exact absurd hcon (by simp)
      · intro h
        exact absurd (h a (List.mem_cons_self a l)) ha

theorem wordsOf_mem : ∀ l : List Char, ∀ w ∈ wordsOf l, w ≠ [] ∧ ∀ c ∈ w, ¬ pyWs c
  | [] => by simp [wordsOf]
  | a :: l => by
    by_cases ha : pyWs a
    · rw [wordsOf_cons_ws a l ha]
      exact wordsOf_mem l
    · rw [wordsOf_cons_not_ws a l ha]
      intro w hw
      rcases List.mem_cons.mp hw with rfl | hw
      · refine ⟨by simp, ?_⟩
        intro c hc
        rcases List.mem_cons.mp hc with rfl | hc
        · exact ha
        · simpa using List.mem_takeWhile_imp hc
      · exact wordsOf_mem (l.dropWhile (fun d => ¬ pyWs d)) w hw
termination_by l => l.length
decreasing_by
  · simp
  · simp only [List.length_cons]
    exact Nat.lt_succ_of_le (dropWhile_length_le _ l)

theorem joinWords_ne_nil (W : List (List Char)) (hW : W ≠ [])
    (h : ∀ w ∈ W, w ≠ []) : joinWords W ≠ [] := by
  match W with
  | [] => exact absurd rfl hW
  | [w] => simpa [joinWords] using h w (by simp)
  | w :: w2 :: ws =>
    have he : joinWords (w :: w2 :: ws) = w ++ ' ' :: joinWords (w2 :: ws) := rfl
    rw [he]
    simp

/-- The head surviving a `dropWhile` fails the predicate. -/
theorem dropWhile_head_not (p : α → Bool) (l : List α) (d : α) (ds : List α)
    (h : l.dropWhile p = d :: ds) : ¬ p d = true := by
  induction l with
  | nil => simp at h
  | cons a l ih =>
    by_cases ha : p a
    · rw [List.dropWhile_cons, if_pos ha] at h
      exact ih h
    · rw [List.dropWhile_cons, if_neg ha] at h
      injection h with h1 h2
      subst h1
      exact ha

/-- The central normalization identity: one global whitespace-run
substitution followed by a trim yields exactly the whitespace-free words
joined by single spaces. -/
theorem strip_collapse_eq_joinWords : ∀ l : List Char,
    pyStripL (collapseWs l) = joinWords (wordsOf l)
  | [] => by
    have h : wordsOf [] = [] := by simp [wordsOf]
    rw [h]
    rfl
  | a :: cs => by
    by_cases ha : pyWs a
    · -- leading whitespace: both sides discard it
      rw [collapseWs_cons_ws a cs ha]
      have h1 : pyStripL (' ' :: collapseWs (cs.dropWhile pyWs)) =
          pyStripL (collapseWs (cs.dropWhile pyWs)) := by
        unfold pyStripL
        rw [List.dropWhile_cons, if_pos (by decide)]
      rw [h1, strip_collapse_eq_joinWords (cs.dropWhile pyWs),
        wordsOf_dropWhile_ws, wordsOf_cons_ws a cs ha]
    · -- a word starts: peel it off whole
      have hsplit := List.takeWhile_append_dropWhile (fun d => ¬ pyWs d) cs
      set tw := cs.takeWhile (fun d => ¬ pyWs d) with htw
      set dw := cs.dropWhile (fun d => ¬ pyWs d) with hdw
      have htwnws : ∀ c ∈ a :: tw, ¬ pyWs c := by
        intro c hc
        rcases List.mem_cons.mp hc with rfl | hc
        · exact ha
        · have h2 := List.mem_takeWhile_imp (htw ▸ hc)
          simp only [decide_eq_true_eq] at h2
          exact h2
      have hcoll : collapseWs (a :: cs) = (a :: tw) ++ collapseWs dw := by
        conv_lhs => rw [← hsplit]
        rw [← List.cons_append]
        exact collapseWs_word (a :: tw) dw htwnws
      rw [hcoll, wordsOf_cons_not_ws a cs ha, ← htw, ← hdw]
      have hstrip : pyStripL ((a :: tw) ++ collapseWs dw) =
          stripTrail ((a :: tw) ++ collapseWs dw) := by
        unfold pyStripL
        rw [List.cons_append, List.dropWhile_cons, if_neg (by simp [ha])]
      rw [hstrip, stripTrail_append]
      by_cases hdwords : wordsOf dw = []
      · -- nothing after the word: the tail strips away entirely
        have hdall := (wordsOf_eq_nil_iff dw).mp hdwords
        have hnil : stripTrail (collapseWs dw) = [] := by
          rcases hdd : dw with _ | ⟨d, ds⟩
          · rfl
          · rw [collapseWs_ws_run d ds (hdd ▸ hdall)]
            rfl
        rw [if_pos hnil, hdwords, stripTrail_no_ws (a :: tw) htwnws]
        rfl
      · -- more words follow: a single joining space survives the trim
        rcases hdd : dw with _ | ⟨d, ds⟩
        · exact absurd (show wordsOf dw = [] by rw [hdd]; simp [wordsOf]) hdwords
        rw [← hdd]
        have hd : pyWs d := by
          have hx := dropWhile_head_not (fun x => ¬ pyWs x) cs d ds
            (by rw [← hdw]; exact hdd)
          simpa using hx
        have hx2 : collapseWs dw = ' ' :: collapseWs (ds.dropWhile pyWs) := by
          rw [hdd, collapseWs_cons_ws d ds hd]
        have hwx : wordsOf (ds.dropWhile pyWs) = wordsOf dw := by
          rw [hdd, wordsOf_cons_ws d ds hd, wordsOf_dropWhile_ws]
        have hrec := strip_collapse_eq_joinWords (ds.dropWhile pyWs)
        have hjoin_ne : joinWords (wordsOf dw) ≠ [] :=
          joinWords_ne_nil _ hdwords (fun w hw => (wordsOf_mem dw w hw).1)
        have hxstrip : pyStripL (collapseWs (ds.dropWhile pyWs)) =
            stripTrail (collapseWs (ds.dropWhile pyWs)) := by
          rcases hxc : ds.dropWhile pyWs with _ | ⟨x0, xs⟩
          · rfl
          · have hx0 : ¬ pyWs x0 = true := dropWhile_head_not pyWs ds x0 xs hxc
            rw [collapseWs_cons_not_ws x0 xs hx0]
            unfold pyStripL
            rw [List.dropWhile_cons, if_neg (by simp [hx0])]
        have hst : stripTrail (collapseWs (ds.dropWhile pyWs)) = joinWords (wordsOf dw) := by
          rw [← hxstrip, hrec, hwx]
        have hdwst : stripTrail (collapseWs dw) = ' ' :: joinWords (wordsOf dw) := by
          rw [hx2,
            show (' ' :: collapseWs (ds.dropWhile pyWs)) =
              [' '] ++ collapseWs (ds.dropWhile pyWs) from rfl,
            stripTrail_append, hst, if_neg hjoin_ne]
          rfl
        rw [if_neg (by rw [hdwst]; simp), hdwst]
        rcases hwd : wordsOf dw with _ | ⟨w2, ws2⟩
        · exact absurd hwd hdwords
        · rfl
termination_by l => l.length
decreasing_by
  · simp only [List.length_cons]
    exact Nat.lt_succ_of_le (dropWhile_length_le pyWs l)
  · have h1 : (ds.dropWhile pyWs).length ≤ ds.length := dropWhile_length_le _ ds
    have h2 : dw.length ≤ l.length := by
      rw [hdw]
      exact dropWhile_length_le _ l
    rw [hdd] at h2
    simp only [List.length_cons] at h2 ⊢
    omega

theorem takeWhile_append_stop (p : α → Bool) (A : List α) (b : α) (B : List α)
    (hA : ∀ a ∈ A, p a) (hb : ¬ p b) : (A ++ b :: B).takeWhile p = A := by
  induction A with
  | nil => simp [List.takeWhile_cons, hb]
  | cons a A ih =>
    rw [List.cons_append, List.takeWhile_cons,
      if_pos (hA a (List.mem_cons_self a A)),
      ih (fun x hx => hA x (List.mem_cons_of_mem a hx))]

theorem dropWhile_append_stop (p : α → Bool) (A : List α) (b : α) (B : List α)
    (hA : ∀ a ∈ A, p a) (hb : ¬ p b) : (A ++ b :: B).dropWhile p = b :: B := by
  induction A with
  | nil => simp [List.dropWhile_cons, hb]
  | cons a A ih =>
    rw [List.cons_append, List.dropWhile_cons,
      if_pos (hA a (List.mem_cons_self a A)),
      ih (fun x hx => hA x (List.mem_cons_of_mem a hx))]

/-- Joining whitespace-free nonempty words and re-splitting recovers them. -/
theorem wordsOf_joinWords (W : List (List Char))
    (h : ∀ w ∈ W, w ≠ [] ∧ ∀ c ∈ w, ¬ pyWs c) : wordsOf (joinWords W) = W := by
  induction W with
  | nil => simp [joinWords, wordsOf]
  | cons w W ih =>
    rcases h w (List.mem_cons_self w W) with ⟨hw, hwc⟩
    rcases hww : w with _ | ⟨c, rest⟩
    · exact absurd hww hw
    subst hww
    have hc : ¬ pyWs c := hwc c (List.mem_cons_self c rest)
    have hrest : ∀ x ∈ rest, ¬ pyWs x = true :=
      fun x hx => hwc x (List.mem_cons_of_mem c hx)
    rcases W with _ | ⟨w2, W2⟩
    · -- a single word joins to itself
      show wordsOf (c :: rest) = [c :: rest]
      rw [wordsOf_cons_not_ws c rest hc,
        List.takeWhile_eq_self_iff.mpr (by simpa using hrest),
        List.dropWhile_eq_nil_iff.mpr (by simpa using hrest)]
      simp [wordsOf]
    · -- the joining space ends the first word exactly
      have hjoin : joinWords ((c :: rest) :: w2 :: W2) =
          c :: (rest ++ ' ' :: joinWords (w2 :: W2)) := rfl
      rw [hjoin, wordsOf_cons_not_ws c _ hc,
        takeWhile_append_stop _ rest ' ' _ (by simpa using hrest) (by decide),
        dropWhile_append_stop _ rest ' ' _ (by simpa using hrest) (by decide),
        wordsOf_cons_ws ' ' _ (by decide),
        ih (fun x hx => h x (List.mem_cons_of_mem _ hx))]

/-- `clean_column_name` is exactly the specification's description: the
whitespace-free words of the name joined by single ASCII spaces. -/
theorem clean_column_name_eq_joinWords (s : String) :
    clean_column_name s = ⟨joinWords (wordsOf s.data)⟩ :=
  congrArg String.mk (strip_collapse_eq_joinWords s.data)

/-- The `table_fields` normalization is the same operation. -/
theorem normalizeTableFields_eq_joinWords (s : String) :
    normalizeTableFields s = ⟨joinWords (wordsOf s.data)⟩ :=
  congrArg String.mk (strip_collapse_eq_joinWords s.data)

/-- Normalizing is idempotent. -/
theorem normalizeTableFields_idem (s : String) :
    normalizeTableFields (normalizeTableFields s) = normalizeTableFields s := by
  rw [normalizeTableFields_eq_joinWords s,
    normalizeTableFields_eq_joinWords ⟨joinWords (wordsOf s.data)⟩]
  show String.mk (joinWords (wordsOf (joinWords (wordsOf s.data)))) = _
  rw [wordsOf_joinWords _ (wordsOf_mem s.data)]

/-- A string strips to empty exactly when it is all-whitespace. -/
theorem stringMk_inj (a b : List Char) : (⟨a⟩ : String) = ⟨b⟩ ↔ a = b := by
  constructor
  · intro h
    injection h
  · intro h
    rw [h]

theorem pyStrip_eq_empty_iff (s : String) :
    pyStrip s = "" ↔ ∀ c ∈ s.data, pyWs c := by
  unfold pyStrip
  rw [show ("" : String) = ⟨[]⟩ from rfl, stringMk_inj]
  exact pyStripL_eq_nil_iff s.data

/-- Normalization preserves emptiness-after-strip in both directions. -/
theorem normalize_empty_iff (s : String) :
    pyStrip (normalizeTableFields s) = "" ↔ pyStrip s = "" := by
  rw [pyStrip_eq_empty_iff, pyStrip_eq_empty_iff s,
    ← wordsOf_eq_nil_iff s.data, normalizeTableFields_eq_joinWords]
  constructor
  · intro h
    by_contra hne
    rcases hW : wordsOf s.data with _ | ⟨w, W⟩
    · exact hne hW
    · rcases wordsOf_mem s.data w (hW ▸ List.mem_cons_self w W) with ⟨hw, hwc⟩
      rcases hww : w with _ | ⟨c, rest⟩
      · exact absurd hww hw
      have hcmem : c ∈ joinWords (wordsOf s.data) := by
        rw [hW, hww]
        rcases W with _ | ⟨w2, W2⟩
        · simp [joinWords]
        · show c ∈ (c :: rest) ++ ' ' :: joinWords (w2 :: W2)
          simp
      have := h c hcmem
      exact absurd this (by simpa [hww] using hwc c (hww ▸ List.mem_cons_self c rest))
  · intro h
    rw [h]
    show ∀ c ∈ (joinWords [] : List Char), pyWs c
    simp [joinWords]

/-! ## Dictionary lemmas -/

theorem keysOf_cons (p : String × α) (l : List (String × α)) :
    keysOf (p :: l) = p.1 :: keysOf l := rfl

theorem insertAssoc_keys (l : List (String × α)) (k : String) (v : α) :
    keysOf (insertAssoc l k v) =
      if k ∈ keysOf l then keysOf l else keysOf l ++ [k] := by
  induction l with
  | nil => simp [insertAssoc, keysOf]
  | cons p l ih =>
    rcases p with ⟨k0, v0⟩
    by_cases h : k0 = k
    · subst h
      simp [insertAssoc, keysOf]
    · rw [show insertAssoc ((k0, v0) :: l) k v = (k0, v0) :: insertAssoc l k v by
        simp [insertAssoc, h]]
      rw [keysOf_cons, keysOf_cons, ih]
      by_cases hm : k ∈ keysOf l
      · rw [if_pos hm, if_pos (List.mem_cons_of_mem _ hm)]
      · rw [if_neg hm, if_neg (by
          simp only [keysOf_cons, List.mem_cons]
          rintro (rfl | hc)
          · exact h rfl
          · exact hm hc)]
        rfl

theorem insertAssoc_not_mem (l : List (String × α)) (k : String) (v : α)
    (h : k ∉ keysOf l) : insertAssoc l k v = l ++ [(k, v)] := by
  induction l with
  | nil => rfl
  | cons p l ih =>
    rcases p with ⟨k0, v0⟩
    have hne : k0 ≠ k := by
      rintro rfl
      exact h (by simp [keysOf])
    rw [show insertAssoc ((k0, v0) :: l) k v = (k0, v0) :: insertAssoc l k v by
      simp [insertAssoc, hne]]
    rw [ih (fun hc => h (by
      rw [keysOf_cons]
      exact List.mem_cons_of_mem _ hc))]
    rfl

theorem foldInsert_keys (entries : List (String × α)) :
    ∀ acc : List (String × α),
      keysOf (foldInsert acc entries) =
        keysOf acc ++ dedupFrom (keysOf acc) (keysOf entries) := by
  induction entries with
  | nil =>
    intro acc
    simp [foldInsert, dedupFrom, keysOf]
  | cons p rest ih =>
    intro acc
    rcases p with ⟨k, v⟩
    show keysOf (foldInsert (insertAssoc acc k v) rest) = _
    rw [ih (insertAssoc acc k v), insertAssoc_keys, keysOf_cons]
    by_cases h : k ∈ keysOf acc
    · rw [if_pos h, show dedupFrom (keysOf acc) (k :: keysOf rest) =
        dedupFrom (keysOf acc) (keysOf rest) by
          rw [dedupFrom, if_pos (List.elem_iff.mpr h)]]
    · rw [if_neg h, show dedupFrom (keysOf acc) (k :: keysOf rest) =
        k :: dedupFrom (keysOf acc ++ [k]) (keysOf rest) by
          rw [dedupFrom, if_neg (fun hc => h (List.elem_iff.mp hc))]]
      simp [List.append_assoc]

theorem foldInsert_of_nodup (entries : List (String × α)) :
    ∀ acc : List (String × α),
      (keysOf acc ++ keysOf entries).Nodup →
      foldInsert acc entries = acc ++ entries := by
  induction entries with
  | nil =>
    intro acc _
    simp [foldInsert]
  | cons p rest ih =>
    intro acc h
    rcases p with ⟨k, v⟩
    rw [keysOf_cons] at h
    have hk : k ∉ keysOf acc := by
      rcases List.nodup_append.mp h with ⟨-, -, hdisj⟩
      exact fun hin => hdisj hin (List.mem_cons_self k (keysOf rest))
    show foldInsert (insertAssoc acc k v) rest = _
    rw [insertAssoc_not_mem acc k v hk, ih (acc ++ [(k, v)]) (by
      have h2 : ((keysOf acc ++ [k]) ++ keysOf rest).Nodup := by
        rw [← List.append_cons]
        exact h
      simpa [keysOf] using h2)]
    simp

/-! ## Validation-loop lemmas -/

theorem validateEntries_ok_iff :
    ∀ (entries : List (String × Json)) (acc : List (String × String)),
      (∃ m, validateEntries entries acc = .ok m) ↔ ∀ p ∈ entries, entryGood p
  | [], acc => by simp [validateEntries]
  | (field, aval) :: rest, acc => by
    by_cases hf : pyStrip field = ""
    · constructor
      · rintro ⟨m, hm⟩
        simp [validateEntries, hf] at hm
      · intro hall
        exact absurd ((hall (field, aval) (by 
          exact List.mem_cons_self _ _)).1) (by simp [hf])
    · rcases aval with _ | b | lx | a | xs | es
      pick_goal 4
      ·
        by_cases ha : pyStrip a = ""
        · constructor
          · rintro ⟨m, hm⟩
            simp [validateEntries, hf, ha] at hm
          · intro hall
            rcases (hall (field, .str a) (List.mem_cons_self _ _)).2 with ⟨sv, hsv, hne⟩
            injection hsv with h1
            exact absurd (h1 ▸ ha) hne
        · constructor
          · rintro ⟨m, hm⟩
            simp only [validateEntries, if_neg hf, if_neg ha] at hm
            intro p hp
            rcases List.mem_cons.mp hp with rfl | hp
            · exact ⟨hf, a, rfl, ha⟩
            · exact (validateEntries_ok_iff rest _).mp ⟨m, hm⟩ p hp
          · intro hall
            rcases (validateEntries_ok_iff rest
                (insertAssoc acc (pyStrip field) (pyStrip a))).mpr
                (fun p hp => hall p (List.mem_cons_of_mem _ hp)) with ⟨m, hm⟩
            exact ⟨m, by simp only [validateEntries, if_neg hf, if_neg ha]; exact hm⟩
      all_goals (
        constructor
        · rintro ⟨m, hm⟩
          simp [validateEntries, hf] at hm
        · intro hall
          rcases (hall _ (List.mem_cons_self _ _)).2 with ⟨sv, hsv, -⟩
          exact Json.noConfusion hsv)

theorem validateEntries_ok_eq :
    ∀ (entries : List (String × Json)) (acc : List (String × String)),
      (∀ p ∈ entries, entryGood p) →
      validateEntries entries acc = .ok (foldInsert acc (entries.map trimEntry))
  | [], acc, _ => by simp [validateEntries, foldInsert]
  | (field, aval) :: rest, acc, hall => by
    rcases hall (field, aval) (List.mem_cons_self _ _) with ⟨hf, sv, hsv, hne⟩
    have hsv2 : aval = Json.str sv := hsv
    subst hsv2
    simp only [validateEntries, if_neg hf, if_neg hne]
    rw [validateEntries_ok_eq rest _ (fun p hp => hall p (List.mem_cons_of_mem _ hp))]
    rfl

/-- `handler_input` succeeds exactly on a non-blank input whose normalized
text parses as a JSON object all of whose entries carry non-blank string
keys and values. -/
theorem handler_input_ok_iff (s : String) :
    (∃ m, handler_input s = .ok m) ↔
      (pyStrip s ≠ "" ∧
        ∃ entries, jsonParse (normalizeTableFields s) = some (.obj entries) ∧
          ∀ p ∈ entries, entryGood p) := by
  unfold handler_input
  by_cases hs : pyStrip s = ""
  · simp [hs]
  · rw [if_neg hs]
    rcases hj : jsonParse (normalizeTableFields s) with _ | j
    · constructor
      · rintro ⟨m, hm⟩
        exact Except.noConfusion hm
      · rintro ⟨-, entries, he, -⟩
        exact Option.noConfusion he
    · rcases j with _ | b | lx | a | xs | entries
      pick_goal 6
      · constructor
        · rintro ⟨m, hm⟩
          refine ⟨hs, entries, rfl, ?_⟩
          exact (validateEntries_ok_iff entries []).mp ⟨m, hm⟩
        · rintro ⟨-, entries2, he, hgood⟩
          injection he with he2
          injection he2 with he3
          rw [show entries = entries2 from he3]
          exact (validateEntries_ok_iff entries2 []).mpr hgood
      all_goals (
        constructor
        · rintro ⟨m, hm⟩
          exact Except.noConfusion hm
        · rintro ⟨-, entries2, he, -⟩
          injection he with he2
          exact Json.noConfusion he2)

/-! ## Projection lemmas -/

theorem projectFrame_ok (df : Frame) (fm : List (String × String))
    (hcover : ∀ k ∈ keysOf fm, k ∈ df.columns) :
    projectFrame df fm = .ok (df.rows.map (fun row =>
      foldInsert [] (fm.map (fun p => (p.2, colCell df.columns row p.1))))) := by
  unfold projectFrame
  rw [if_pos (by
    rw [List.filter_eq_nil_iff]
    intro k hk
    simp only [decide_not, Bool.not_eq_true, decide_eq_false_iff_not]
    intro hcon
    exact absurd (hcover k hk) (by simpa using hcon))]
  have hfun : ∀ row : List (Option String),
      fm.foldl (fun acc p => insertAssoc acc p.2 (colCell df.columns row p.1)) [] =
        foldInsert [] (fm.map (fun p => (p.2, colCell df.columns row p.1))) := by
    intro row
    rw [foldInsert, List.foldl_map]
  simp only [hfun]

theorem projectFrame_missing (df : Frame) (fm : List (String × String))
    (h : ∃ k ∈ keysOf fm, k ∉ df.columns) :
    ∃ missing, projectFrame df fm = .error (.missingColumns missing df.columns) ∧
      missing ≠ [] ∧
      ∀ k, k ∈ missing ↔ (k ∈ keysOf fm ∧ k ∉ df.columns) := by
  rcases h with ⟨k0, hk0, hk0n⟩
  have hmem : k0 ∈ (keysOf fm).filter (fun k => ¬ df.columns.contains k) := by
    rw [List.mem_filter]
    exact ⟨hk0, by simpa using hk0n⟩
  have hne : (keysOf fm).filter (fun k => ¬ df.columns.contains k) ≠ [] := by
    intro hcon
    rw [hcon] at hmem
    exact absurd hmem (by simp)
  refine ⟨(keysOf fm).filter (fun k => ¬ df.columns.contains k), ?_, hne, ?_⟩
  · have hne2 := hne
    unfold keysOf at hne2
    simp only [projectFrame]
    rw [if_neg hne2]
    rfl
  · intro k
    rw [List.mem_filter]
    constructor
    · rintro ⟨h1, h2⟩
      exact ⟨h1, by simpa using h2⟩
    · rintro ⟨h1, h2⟩
      exact ⟨h1, by simpa using h2⟩

/-! ## Encoding-fallback lemmas -/

/-- `read_csv` raises only `EmptyDataError` or `ParserError`. -/
theorem read_csv_err_shape (t : String) (e : PyErr) (h : read_csv t = .error e) :
    e = .emptyDataError ∨ ∃ m, e = .parserError m := by
  unfold read_csv at h
  split at h
  · injection h with h1
    exact Or.inl h1.symm
  · split at h
    · injection h with h1
      exact Or.inr ⟨_, h1.symm⟩
    · exact Except.noConfusion h

theorem csvAttempt_runtime (dec : Option String) (next : Except PyErr Frame) (m : String) :
    csvAttempt dec next = .error (.runtimeError m) ↔
      (caughtFail dec ∧ next = .error (.runtimeError m)) := by
  rcases dec with _ | t
  · simp [csvAttempt, caughtFail]
  · unfold caughtFail
    rcases h : read_csv t with e | f
    · rcases read_csv_err_shape t e h with rfl | ⟨m2, rfl⟩
      · rw [show csvAttempt (some t) next = .error .emptyDataError by
          simp [csvAttempt, h]]
        constructor
        · intro hcon
          injection hcon with h1
          exact PyErr.noConfusion h1
        · rintro ⟨hcf | ⟨t2, m3, ht2, hp⟩, -⟩
          · exact Option.noConfusion hcf
          · injection ht2 with ht3
            rw [ht3] at h
            rw [h] at hp
            injection hp with h2
            exact PyErr.noConfusion h2
      · rw [show csvAttempt (some t) next = next by simp [csvAttempt, h]]
        constructor
        · intro hn
          exact ⟨Or.inr ⟨t, m2, rfl, h⟩, hn⟩
        · rintro ⟨-, hn⟩
          exact hn
    · rw [show csvAttempt (some t) next = .ok f by simp [csvAttempt, h]]
      constructor
      · intro hcon
        exact Except.noConfusion hcon
      · rintro ⟨hcf | ⟨t2, m2, ht2, hp⟩, -⟩
        · exact Option.noConfusion hcf
        · injection ht2 with ht3
          rw [ht3] at h
          rw [h] at hp
          exact Except.noConfusion hp

/-- The loop of `read_csv_with_encoding` produces the final
"Failed to decode CSV with encodings" error exactly when both candidates
fail with a caught exception (decode error or tokenization error). -/
theorem read_csv_with_encoding_runtime_iff (content : List Nat) (m : String) :
    read_csv_with_encoding content = .error (.runtimeError m) ↔
      (caughtFail (decodeUtf8Str content) ∧ caughtFail (decodeGbkStr content) ∧
        m = encodingsMsg) := by
  unfold read_csv_with_encoding
  rw [csvAttempt_runtime, csvAttempt_runtime]
  constructor
  · rintro ⟨h1, h2, h3⟩
    injection h3 with h4
    injection h4 with h5
    exact ⟨h1, h2, h5.symm⟩
  · rintro ⟨h1, h2, rfl⟩
    exact ⟨h1, h2, rfl⟩

/-- A `read_csv` failure the loop does not catch (here: `EmptyDataError` on
a successfully decoded candidate) aborts the fallback at once. -/
theorem read_csv_with_encoding_escape (content : List Nat) (t : String)
    (h1 : decodeUtf8Str content = some t) (h2 : read_csv t = .error .emptyDataError) :
    read_csv_with_encoding content = .error .emptyDataError := by
  simp [read_csv_with_encoding, csvAttempt, h1, h2]

/-! ## `handler_input` branch equations -/

theorem handler_input_empty (s : String) (hs : pyStrip s = "") :
    handler_input s = .error (.valueError "Empty table_fields input") := by
  unfold handler_input
  rw [if_pos hs]

theorem handler_input_badjson (s : String) (hs : pyStrip s ≠ "")
    (hj : jsonParse (normalizeTableFields s) = none) :
    handler_input s = .error (.valueError "Invalid JSON format: Expecting value") := by
  unfold handler_input
  rw [if_neg hs, hj]

theorem handler_input_nonobj (s : String) (hs : pyStrip s ≠ "") (j : Json)
    (hj : jsonParse (normalizeTableFields s) = some j)
    (hno : ∀ entries, j ≠ .obj entries) :
    handler_input s =
      .error (.valueError "Failed to parse table_fields: Input must be a JSON object") := by
  unfold handler_input
  rw [if_neg hs, hj]
  rcases j with _ | b | lx | a | xs | entries
  pick_goal 6
  · exact absurd rfl (hno entries)
  all_goals rfl

theorem handler_input_obj (s : String) (hs : pyStrip s ≠ "")
    (entries : List (String × Json))
    (hj : jsonParse (normalizeTableFields s) = some (.obj entries)) :
    handler_input s = validateEntries entries [] := by
  unfold handler_input
  rw [if_neg hs, hj]

theorem validateEntries_err_shape :
    ∀ (entries : List (String × Json)) (acc : List (String × String)) (e : PyErr),
      validateEntries entries acc = .error e → ∃ m, e = .valueError m
  | [], _, e => fun h => Except.noConfusion h
  | (field, aval) :: rest, acc, e => by
    intro h
    by_cases hf : pyStrip field = ""
    · simp only [validateEntries, if_pos hf] at h
      injection h with h1
      exact ⟨_, h1.symm⟩
    · simp only [validateEntries, if_neg hf] at h
      rcases aval with _ | b | lx | a | xs | es
      pick_goal 4
      · by_cases ha : pyStrip a = ""
        · simp only [if_pos ha] at h
          injection h with h1
          exact ⟨_, h1.symm⟩
        · simp only [if_neg ha] at h
          exact validateEntries_err_shape rest _ e h
      all_goals (
        injection h with h1
        exact ⟨_, h1.symm⟩)

theorem validateEntries_error_iff (entries : List (String × Json))
    (acc : List (String × String)) :
    (∃ e, validateEntries entries acc = .error (.valueError e)) ↔
      ∃ p ∈ entries, ¬ entryGood p := by
  constructor
  · rintro ⟨e, he⟩
    by_contra hcon
    push_neg at hcon
    rcases (validateEntries_ok_iff entries acc).mpr hcon with ⟨m, hm⟩
    rw [hm] at he
    exact Except.noConfusion he
  · rintro ⟨p, hp, hbad⟩
    rcases hres : validateEntries entries acc with e2 | m
    · rcases validateEntries_err_shape entries acc e2 hres with ⟨msg, rfl⟩
      exact ⟨msg, rfl⟩
    · exact absurd ((validateEntries_ok_iff entries acc).mp ⟨m, hres⟩ p hp) hbad

/-! ## Claim theorems -/

/-- C9: `normalizeColumns` changes only the frame's column names — row data
untouched, column count and order preserved (position `i` still holds the
cleaned form of old name `i`) — and each name is rewritten by collapsing
every run of whitespace characters to a single ASCII space and trimming:
equivalently, the name becomes its whitespace-free words joined by single
spaces. -/
theorem c9_normalizeColumns_names_only (f : Frame) :
    (normalizeColumns f).rows = f.rows ∧
    (normalizeColumns f).columns = f.columns.map clean_column_name ∧
    (normalizeColumns f).columns.length = f.columns.length ∧
    ∀ name : String, clean_column_name name = ⟨joinWords (wordsOf name.data)⟩ :=
  ⟨rfl, rfl, by simp [normalizeColumns], fun name => clean_column_name_eq_joinWords name⟩

/-- C10 (implicit): `handler_input` parses the whitespace-normalized text of
the entire raw input — pre-normalizing the input changes nothing — so
whitespace/non-breaking-space runs inside JSON string literals are collapsed
to one ASCII space in the returned mapping; concretely the value
`"a  b"` (two non-breaking spaces) comes back as `"a b"`. -/
theorem c10_normalization_reaches_inside_literals :
    (∀ s : String, handler_input (normalizeTableFields s) = handler_input s) ∧
    handler_input "\x7b\"k\": \"a  b\"\x7d" = .ok [("k", "a b")] := by
  constructor
  · intro s
    unfold handler_input
    rw [normalizeTableFields_idem]
    by_cases hs : pyStrip s = ""
    · rw [if_pos hs, if_pos ((normalize_empty_iff s).mpr hs)]
    · rw [if_neg hs, if_neg (fun hcon => hs ((normalize_empty_iff s).mp hcon))]
  · rfl

/-- C8: every invocation yields either exactly one `Error: …` text message
(when a pipeline step raised) or exactly the structured result message
followed by its text echo (when none did) — no partial output, no
structured error. -/
theorem c8_invoke_messages (p : ToolParams) :
    (∃ e, pipelineResult p = .error e ∧
      toolInvoke p = [.textMsg ("Error: " ++ pyStrErr e)]) ∨
    (∃ r, pipelineResult p = .ok r ∧
      toolInvoke p = [.jsonMsg r, .textMsg (dumpOutput r)]) := by
  rcases hh : handler_input p.table_fields with e | fm
  · refine Or.inl ⟨e, ?_, ?_⟩
    · unfold pipelineResult
      rw [hh]
    · unfold toolInvoke
      rw [hh]
  · have hpipe : pipelineResult p = read_table_file_to_objects p.file fm := by
      unfold pipelineResult
      rw [hh]
    have hinv : toolInvoke p =
        (match read_table_file_to_objects p.file fm with
          | .error e => [ToolMessage.textMsg ("Error: " ++ pyStrErr e)]
          | .ok result => [.jsonMsg result, .textMsg (dumpOutput result)]) := by
      unfold toolInvoke
      rw [hh]
    rcases hr : read_table_file_to_objects p.file fm with e | r
    · rw [hr] at hpipe hinv
      exact Or.inl ⟨e, hpipe, hinv⟩
    · rw [hr] at hpipe hinv
      exact Or.inr ⟨r, hpipe, hinv⟩

/-- C5: `parseFieldMapping` (`handler_input`) fails — always with a
`ValueError`, the spec's `InvalidInputError` — exactly when the input is
empty or all-whitespace, or its (normalized) text is not valid JSON, or
parses to a non-object, or some entry's key or value is not a string that is
non-empty after trimming; in every such case no mapping is returned, and in
every other case one is. -/
theorem c5_handler_input_error_iff (s : String) :
    (∃ e, handler_input s = .error (.valueError e)) ↔
      (pyStrip s = "" ∨
        jsonParse (normalizeTableFields s) = none ∨
        (∃ j, jsonParse (normalizeTableFields s) = some j ∧
          ∀ entries, j ≠ .obj entries) ∨
        (∃ entries, jsonParse (normalizeTableFields s) = some (.obj entries) ∧
          ∃ p ∈ entries, ¬ entryGood p)) := by
  by_cases hs : pyStrip s = ""
  · constructor
    · intro _
      exact Or.inl hs
    · intro _
      exact ⟨"Empty table_fields input", handler_input_empty s hs⟩
  · rcases hj : jsonParse (normalizeTableFields s) with _ | j
    · constructor
      · intro _
        exact Or.inr (Or.inl rfl)
      · intro _
        exact ⟨_, handler_input_badjson s hs hj⟩
    · rcases j with _ | b | lx | a | xs | entries
      pick_goal 6
      · rw [handler_input_obj s hs entries hj, validateEntries_error_iff]
        constructor
        · intro hbad
          exact Or.inr (Or.inr (Or.inr ⟨entries, rfl, hbad⟩))
        · rintro (h1 | h2 | ⟨j2, hj2, hno⟩ | ⟨entries2, hj2, hbad⟩)
          · exact absurd h1 hs
          · exact Option.noConfusion h2
          · injection hj2 with h3
            exact absurd h3.symm (hno entries)
          · injection hj2 with h3
            injection h3 with h4
            rw [show entries = entries2 from h4]
            exact hbad
      all_goals (
        constructor
        · intro _
          exact Or.inr (Or.inr (Or.inl ⟨_, rfl, fun entries hcon => Json.noConfusion hcon⟩))
        · intro _
          exact ⟨_, handler_input_nonobj s hs _ hj (fun entries hcon => Json.noConfusion hcon)⟩)

/-- C1: when the normalized column set covers every mapping key, projection
returns one record per input row in original order; each record's keys are
exactly the mapping's aliases in mapping-key order (first position kept if
an alias repeats), and for distinct aliases each record is literally the
(alias, cell) pairs in mapping order, the cell being the row's value under
the mapped column — `none` (an explicit null) for an empty or absent cell,
never an empty string or a sentinel.  Concretely, a `.csv` file with rows
`id,name\n1,Alice\n2,` and mapping `{"id": "ID", "name": "Name"}` yields
exactly `[{"ID": "1", "Name": "Alice"}, {"ID": "2", "Name": null}]`. -/
theorem c1_project_records (f : Frame) (fm : List (String × String))
    (hcover : ∀ k ∈ keysOf fm, k ∈ (normalizeColumns f).columns) :
    (∃ recs, projectFrame (normalizeColumns f) fm = .ok recs ∧
      recs.length = f.rows.length ∧
      (∀ r ∈ recs, keysOf r = dedupKeepFirst (fm.map Prod.snd)) ∧
      ((fm.map Prod.snd).Nodup →
        recs = f.rows.map (fun row =>
          fm.map (fun p => (p.2, colCell (normalizeColumns f).columns row p.1))))) ∧
    read_table_file_to_objects
        (.file ⟨".csv", asciiBytes "id,name\n1,Alice\n2,"⟩)
        [("id", "ID"), ("name", "Name")] =
      .ok [[("ID", some "1"), ("Name", some "Alice")],
           [("ID", some "2"), ("Name", none)]] := by
  constructor
  · refine ⟨_, projectFrame_ok (normalizeColumns f) fm hcover, ?_, ?_, ?_⟩
    · show (f.rows.map _).length = f.rows.length
      rw [List.length_map]
    · intro r hr
      rcases List.mem_map.mp hr with ⟨row, -, rfl⟩
      rw [foldInsert_keys]
      show [] ++ dedupFrom [] (keysOf _) = _
      rw [List.nil_append, dedupKeepFirst]
      congr 1
      show keysOf (fm.map _) = fm.map Prod.snd
      unfold keysOf
      rw [List.map_map]
      rfl
    · intro hnodup
      congr 1
      funext row
      rw [foldInsert_of_nodup _ [] (by
        rw [show keysOf ([] : List (String × Option String)) = [] from rfl,
          List.nil_append]
        have : keysOf (fm.map (fun p => (p.2, colCell (normalizeColumns f).columns row p.1))) =
            fm.map Prod.snd := by
          unfold keysOf
          rw [List.map_map]
          rfl
        rw [this]
        exact hnodup)]
      rw [List.nil_append]
  · rfl

/-- C1 witness: the theorem applied to the parsed `a.csv` frame and the
example mapping. -/
theorem c1_project_records_witness :
    read_table_file_to_objects
        (.file ⟨".csv", asciiBytes "id,name\n1,Alice\n2,"⟩)
        [("id", "ID"), ("name", "Name")] =
      .ok [[("ID", some "1"), ("Name", some "Alice")],
           [("ID", some "2"), ("Name", none)]] :=
  (c1_project_records ⟨["id", "name"], [[some "1", none]]⟩
    [("id", "ID"), ("name", "Name")] (by decide)).2

/-- C6 counterexample: the object `{"a": "x", "a ": "y"}` has two entries,
both valid, but the keys collide after trimming: the returned mapping is
`{"a": "y"}` with one key, not two, and the entry `("a", "x")` is not
among the trimmed input entries returned. -/
theorem c6_counterexample :
    jsonParse (normalizeTableFields "\x7b\"a\": \"x\", \"a \": \"y\"\x7d") =
      some (.obj [("a", .str "x"), ("a ", .str "y")]) ∧
    handler_input "\x7b\"a\": \"x\", \"a \": \"y\"\x7d" = .ok [("a", "y")] ∧
    ([("a", "y")] : List (String × String)).length ≠
      ([("a", Json.str "x"), ("a ", Json.str "y")]).length := by
  refine ⟨rfl, rfl, by decide⟩

/-- C6 amended: for every input whose normalized text parses as a JSON
object all of whose entries are non-blank strings, `parseFieldMapping`
succeeds and returns the dictionary built from the entries with keys and
values trimmed, a later entry overriding the value of an earlier one whose
trimmed key coincides (keeping its position); the key count equals the
number of distinct trimmed keys. -/
theorem c6_amended (s : String) (entries : List (String × Json))
    (hj : jsonParse (normalizeTableFields s) = some (.obj entries))
    (hgood : ∀ p ∈ entries, entryGood p) :
    handler_input s = .ok (foldInsert [] (entries.map trimEntry)) ∧
    (foldInsert [] (entries.map trimEntry)).length =
      (dedupKeepFirst (entries.map (fun p => pyStrip p.1))).length := by
  have hs : pyStrip s ≠ "" := by
    intro hcon
    have hnorm : normalizeTableFields s = "" := by
      rw [normalizeTableFields_eq_joinWords,
        (wordsOf_eq_nil_iff s.data).mpr ((pyStrip_eq_empty_iff s).mp hcon)]
      rfl
    rw [hnorm] at hj
    have : (none : Option Json) = some (.obj entries) := hj
    exact Option.noConfusion this
  constructor
  · rw [handler_input_obj s hs entries hj]
    exact validateEntries_ok_eq entries [] hgood
  · have hlen : (foldInsert [] (entries.map trimEntry)).length =
        (keysOf (foldInsert [] (entries.map trimEntry))).length := by
      unfold keysOf
      rw [List.length_map]
    rw [hlen, foldInsert_keys]
    show ([] ++ dedupFrom [] (keysOf (entries.map trimEntry))).length = _
    rw [List.nil_append, dedupKeepFirst]
    congr 2
    unfold keysOf
    rw [List.map_map]
    rfl

/-- C6 witness: the amended claim at the colliding-keys object. -/
theorem c6_amended_witness :
    handler_input "\x7b\"a\": \"x\", \"a \": \"y\"\x7d" =
      .ok (foldInsert [] ([("a", Json.str "x"), ("a ", Json.str "y")].map trimEntry)) ∧
    (foldInsert [] ([("a", Json.str "x"), ("a ", Json.str "y")].map trimEntry)).length =
      (dedupKeepFirst ([("a", Json.str "x"), ("a ", Json.str "y")].map
        (fun p => pyStrip p.1))).length :=
  c6_amended "\x7b\"a\": \"x\", \"a \": \"y\"\x7d"
    [("a", Json.str "x"), ("a ", Json.str "y")] rfl
    (by
      intro p hp
      rcases List.mem_cons.mp hp with rfl | hp
      · exact ⟨by decide, "x", rfl, by decide⟩
      rcases List.mem_cons.mp hp with rfl | hp
      · exact ⟨by decide, "y", rfl, by decide⟩
      · exact absurd hp (by simp))

/-- C7: when some mapping key is absent from the normalized column set, the
projection fails with the missing-columns error carrying exactly the absent
keys and the full normalized column list, and produces no records. -/
theorem c7_missing_columns (f : Frame) (fm : List (String × String))
    (h : ∃ k ∈ keysOf fm, k ∉ (normalizeColumns f).columns) :
    ∃ missing, projectFrame (normalizeColumns f) fm =
        .error (.missingColumns missing (normalizeColumns f).columns) ∧
      missing ≠ [] ∧
      (∀ k, k ∈ missing ↔ (k ∈ keysOf fm ∧ k ∉ (normalizeColumns f).columns)) ∧
      ∀ recs, projectFrame (normalizeColumns f) fm ≠ .ok recs := by
  rcases projectFrame_missing (normalizeColumns f) fm h with ⟨missing, heq, hne, hmem⟩
  refine ⟨missing, heq, hne, hmem, ?_⟩
  intro recs hcon
  rw [heq] at hcon
  exact Except.noConfusion hcon

/-- C7 witness: a mapping referencing the absent column `name`. -/
theorem c7_missing_columns_witness :
    ∃ missing, projectFrame (normalizeColumns ⟨["id"], [[some "1"]]⟩)
        [("id", "ID"), ("name", "Name")] =
        .error (.missingColumns missing
          (normalizeColumns ⟨["id"], [[some "1"]]⟩).columns) ∧
      missing ≠ [] ∧
      (∀ k, k ∈ missing ↔ (k ∈ keysOf [("id", "ID"), ("name", "Name")] ∧
        k ∉ (normalizeColumns ⟨["id"], [[some "1"]]⟩).columns)) ∧
      ∀ recs, projectFrame (normalizeColumns ⟨["id"], [[some "1"]]⟩)
        [("id", "ID"), ("name", "Name")] ≠ .ok recs :=
  c7_missing_columns ⟨["id"], [[some "1"]]⟩ [("id", "ID"), ("name", "Name")]
    ⟨"name", by decide, by decide⟩

/-- C2 (code bug): line 74 calls `pd.read_spreadsheet`, an attribute pandas
does not define (the library function is `pd.read_excel`), so for every
`.xlsx`/`.xls` input — whatever the byte content — the `AttributeError` is
caught by line 77 and the operation fails with the wrapped message; no
spreadsheet is ever parsed. -/
theorem c2_spreadsheet_always_fails (f : File) (fm : List (String × String))
    (h : pyLower f.extension = ".xlsx" ∨ pyLower f.extension = ".xls") :
    read_table_file_to_objects (.file f) fm =
      .error (.runtimeError ("Failed to parse file: " ++ readSpreadsheetMissingMsg)) := by
  simp only [read_table_file_to_objects]
  rw [if_neg (by rcases h with h | h <;> rw [h] <;> decide), if_pos h]
  rfl

/-- C2 witness: a well-formed-looking `.xlsx` payload still fails. -/
theorem c2_spreadsheet_always_fails_witness :
    read_table_file_to_objects (.file ⟨".xlsx", [0x50, 0x4b, 0x03, 0x04]⟩) [] =
      .error (.runtimeError ("Failed to parse file: " ++ readSpreadsheetMissingMsg)) :=
  c2_spreadsheet_always_fails ⟨".xlsx", [0x50, 0x4b, 0x03, 0x04]⟩ [] (by decide)

/-- C3 counterexample: the empty `.csv` content decodes under both
candidate encodings and `read_csv` then raises `EmptyDataError` — a parse
error — on each; the claim would have the loop move on and, with every
candidate failed, raise the `UnreadableFileError` naming the encodings, but
the uncaught `EmptyDataError` escapes the loop instead. -/
theorem c3_counterexample :
    decodeUtf8Str [] = some "" ∧
    decodeGbkStr [] = some "" ∧
    read_csv "" = .error .emptyDataError ∧
    read_csv_with_encoding [] = .error .emptyDataError ∧
    read_csv_with_encoding [] ≠ .error (.runtimeError encodingsMsg) := by
  refine ⟨rfl, rfl, rfl, rfl, ?_⟩
  intro hcon
  rw [show read_csv_with_encoding [] = .error .emptyDataError from rfl] at hcon
  injection hcon with h
  exact PyErr.noConfusion h

/-- C3 amended: for every `.csv` content the candidates utf-8 then gbk are
tried in order; a decode failure or a tokenization error (`ParserError`)
moves to the next candidate, and the `RuntimeError` naming the attempted
encodings is raised exactly when both candidates fail that way; any other
parse failure (e.g. `EmptyDataError`) escapes the loop at once; and a CSV
decodable only under the gbk fallback succeeds via it with the correct cell
text. -/
theorem c3_amended :
    (∀ (content : List Nat) (m : String),
      read_csv_with_encoding content = .error (.runtimeError m) ↔
        (caughtFail (decodeUtf8Str content) ∧ caughtFail (decodeGbkStr content) ∧
          m = encodingsMsg)) ∧
    (∀ (content : List Nat) (t : String),
      decodeUtf8Str content = some t →
      read_csv t = .error .emptyDataError →
      read_csv_with_encoding content = .error .emptyDataError) ∧
    (decodeUtf8Str [0x63, 0x0a, 0xc4, 0xe3] = none ∧
      read_csv_with_encoding [0x63, 0x0a, 0xc4, 0xe3] =
        .ok ⟨["c"], [[some "你"]]⟩) :=
  ⟨read_csv_with_encoding_runtime_iff,
   read_csv_with_encoding_escape,
   rfl, rfl⟩

/-- C3 witness: the escape clause applied to a lone newline, which decodes
under utf-8 and parses to no rows. -/
theorem c3_amended_witness :
    read_csv_with_encoding [0x0a] = .error .emptyDataError :=
  c3_amended.2.1 [0x0a] "\n" rfl rfl

/-- C4 counterexample: for extension `.txt` the failure is the wrapping
`RuntimeError` ("Failed to parse file: …", the spec's `FileParseError`) —
the bare unsupported-format `ValueError` raised at line 76 is caught by
line 77's `except` and never reaches the caller. -/
theorem c4_counterexample :
    read_table_file_to_objects (.file ⟨".txt", []⟩) [] =
      .error (.runtimeError ("Failed to parse file: " ++ unsupportedMsg ".txt")) ∧
    read_table_file_to_objects (.file ⟨".txt", []⟩) [] ≠
      .error (.valueError (unsupportedMsg ".txt")) := by
  refine ⟨rfl, ?_⟩
  intro hcon
  rw [show read_table_file_to_objects (.file ⟨".txt", []⟩) [] =
    .error (.runtimeError ("Failed to parse file: " ++ unsupportedMsg ".txt")) from rfl] at hcon
  injection hcon with h
  exact PyErr.noConfusion h

/-- C4 amended: an extension outside `{.csv, .xlsx, .xls}` (compared
case-insensitively) fails with the `FileParseError` wrapping of the
unsupported-format message, which still names the offending extension and
the supported set. -/
theorem c4_amended (f : File) (fm : List (String × String))
    (h1 : pyLower f.extension ≠ ".csv") (h2 : pyLower f.extension ≠ ".xlsx")
    (h3 : pyLower f.extension ≠ ".xls") :
    read_table_file_to_objects (.file f) fm =
      .error (.runtimeError ("Failed to parse file: " ++
        unsupportedMsg (pyLower f.extension))) := by
  simp only [read_table_file_to_objects]
  rw [if_neg h1, if_neg (by
    rintro (h | h)
    · exact h2 h
    · exact h3 h)]
  rfl

/-- C4 witness: the amended claim at extension `.txt`. -/
theorem c4_amended_witness :
    read_table_file_to_objects (.file ⟨".txt", []⟩) [] =
      .error (.runtimeError ("Failed to parse file: " ++ unsupportedMsg ".txt")) :=
  c4_amended ⟨".txt", []⟩ [] (by decide) (by decide) (by decide)
